import Mathlib

/-!
Verification of the memory-management core of the ReasonOS kernel.

This file gives a shallow embedding, in Lean 4, of the physical-memory
manager (src/reason/src/memory/pmm.rs), the boundary-tag heap allocator
(src/reason/src/memory/heap.rs) together with the intrusive linked lists it
uses (src/reason/src/data_structures/linked_list.rs), the virtual-memory
region allocator (src/reason/src/memory/vmm.rs) and the 4-level page-table
walker (src/reason/src/arch/x86_64/paging.rs), and proves or refutes the
claims of the specification against it.

Modelling conventions:
* machine integers (u64, u32, usize) are modelled as Nat; every arithmetic
  operation that could overflow or underflow in the source is noted at its
  definition, and the concrete states used in theorems stay far below 2^64
  and avoid underflow, so Nat arithmetic agrees with the machine arithmetic
  there;
* raw-pointer memory is modelled by total functions from addresses to the
  stored values (page-table entries, block headers);
* panics (assert failures, expect on None, the explicit panic in free_page)
  are modelled by the KRes result type below;
* unbounded source loops are modelled with an explicit fuel parameter; a
  run that exhausts its fuel is distinguished from a run that terminates.
-/

namespace ReasonOS

/-- Result of a kernel operation that can panic: either a value or a panic. -/
inductive KRes (α : Type) where
  | ok : α → KRes α
  | panicked : KRes α
deriving DecidableEq, Repr

/-- Functorial action on the non-panicking result. -/
def KRes.map {α β : Type} (f : α → β) : KRes α → KRes β
  | .ok a => .ok (f a)
  | .panicked => .panicked

/-- PAGE_SIZE from src/reason/src/arch/x86_64/paging.rs line 17. -/
def PAGE_SIZE : Nat := 4096

/-- align_up from src/reason/src/misc/utils.rs: ((addr + align - 1) / align) * align. -/
def align_up (addr align : Nat) : Nat := ((addr + align - 1) / align) * align

/-- Rust u64::div_ceil, used by pmm.rs and vmm.rs: (a + b - 1) / b for Nat. -/
def divCeil (a b : Nat) : Nat := (a + b - 1) / b

/-! ## Physical-memory manager (src/reason/src/memory/pmm.rs)

The struct Bitmap holds last_index_used, used_pages, total_pages (usize)
and a raw byte pointer data to the bit array.  The bit array is modelled as
a list of booleans indexed by page index: bit operations in the source
address bit (index % 8) of byte (index / 8), which is exactly bit index of
the array.  The source never initialises the bit array; the model takes the
usual assumption that a fresh Usable region reads as zero, so the installed
bitmap starts as List.replicate total_pages false. -/

/-- Bitmap from pmm.rs lines 15-21. The data pointer is modelled as the bit
array it points to, one Bool per page index. -/
structure Bitmap where
  last_index_used : Nat
  used_pages : Nat
  total_pages : Nat
  data : List Bool
deriving DecidableEq, Repr

/-- Bitmap.set_used (pmm.rs lines 24-33): set bit at index, increment
used_pages. A List.set beyond the length of data is a no-op, matching a
write outside the modelled bit range. -/
def Bitmap.setUsed (bm : Bitmap) (index : Nat) : Bitmap :=
  { bm with data := bm.data.set index true, used_pages := bm.used_pages + 1 }

/-- Bitmap.set_free (pmm.rs lines 35-43): clear bit at index, decrement
used_pages. The source decrement is a usize subtraction; the states used in
the theorems below all have used_pages positive, where Nat subtraction
agrees with it. -/
def Bitmap.setFree (bm : Bitmap) (index : Nat) : Bitmap :=
  { bm with data := bm.data.set index false, used_pages := bm.used_pages - 1 }

/-- Bitmap.is_used (pmm.rs lines 45-51): read bit at index. -/
def Bitmap.isUsed (bm : Bitmap) (index : Nat) : Bool :=
  bm.data.getD index false

/-- Bitmap.is_full (pmm.rs lines 53-55): total_pages == used_pages. -/
def Bitmap.isFull (bm : Bitmap) : Bool :=
  bm.total_pages == bm.used_pages

/-- Value of last_index_used after the reset step at the top of each
get_free_index iteration (pmm.rs lines 59-61): reset to 0 when it exceeds
used_pages. -/
def Bitmap.hint (bm : Bitmap) : Nat :=
  if bm.used_pages < bm.last_index_used then 0 else bm.last_index_used

/-- State of the bitmap after the successful branch of get_free_index
(pmm.rs lines 63-69): set_used at the index, then advance the hint past
it. -/
def Bitmap.mark (bm : Bitmap) (i : Nat) : Bitmap :=
  { bm with data := bm.data.set i true,
            used_pages := bm.used_pages + 1,
            last_index_used := i + 1 }

/-- Bitmap.get_free_index (pmm.rs lines 57-76), with one unit of fuel per
iteration of the source while loop.  Result none means the fuel ran out
before the loop finished; some none is the source returning None (loop
condition used_pages < total_pages false); some (some (i, bm)) is the
source returning Some(i) with the updated bitmap. -/
def Bitmap.getFreeIndex : Bitmap → Nat → Option (Option (Nat × Bitmap))
  | _, 0 => none
  | bm, fuel + 1 =>
    if bm.used_pages < bm.total_pages then
      if bm.isUsed bm.hint then
        Bitmap.getFreeIndex { bm with last_index_used := bm.hint + 1 } fuel
      else
        some (some (bm.hint, bm.mark bm.hint))
    else
      some none

/-- BITMAP_SIZE from pmm.rs line 79: size_of::<Bitmap>() with three usize
fields and one pointer on x86_64. -/
def BITMAP_SIZE : Nat := 32

/-- Memory-map entry kinds relevant to the allocator (limine memmap). -/
inductive EntryType where
  | Usable
  | NotUsable
deriving DecidableEq, Repr

/-- MemmapEntry together with the bitmap installed at its base.  The source
reaches the bitmap through the HHDM window at entry.base; the model stores
it inline. -/
structure MemmapEntry where
  base : Nat
  len : Nat
  typ : EntryType
  bitmap : Bitmap
deriving DecidableEq, Repr

/-- Loop of BitmapInstallable::install (pmm.rs lines 101-103): set_used on
indices 0..n. -/
def installBits : Nat → Bitmap → Bitmap
  | 0, bm => bm
  | n + 1, bm => (installBits n bm).setUsed n

/-- Number of low bit indices reserved by install (pmm.rs line 90):
(total_pages + BITMAP_SIZE.div_ceil(PAGE_SIZE)).div_ceil(8). -/
def reservedBits (len : Nat) : Nat :=
  divCeil (len / PAGE_SIZE + divCeil BITMAP_SIZE PAGE_SIZE) 8

/-- BitmapInstallable::install (pmm.rs lines 87-104): write a fresh Bitmap
with last_index_used = reserved, used_pages = 0, then set_used each of the
reserved indices (so used_pages ends at reserved). -/
def installEntry (base len : Nat) (typ : EntryType) : MemmapEntry :=
  let total := len / PAGE_SIZE
  let reserved := reservedBits len
  { base := base, len := len, typ := typ,
    bitmap := installBits reserved
      { last_index_used := reserved, used_pages := 0, total_pages := total,
        data := List.replicate total false } }

/-- BitmapAllocator::new (pmm.rs lines 116-130): install a bitmap in every
Usable entry; other entries are left untouched (their bitmap field is
never read, the model stores an empty one). -/
def installAll (raw : List (Nat × Nat × EntryType)) : List MemmapEntry :=
  raw.map fun e =>
    match e with
    | (base, len, EntryType.Usable) => installEntry base len EntryType.Usable
    | (base, len, typ) =>
      { base := base, len := len, typ := typ,
        bitmap := { last_index_used := 0, used_pages := 0, total_pages := 0, data := [] } }

/-- BitmapAllocator::allocate_page (pmm.rs lines 132-162): scan the entries
in order, skip non-Usable and full ones, and take get_free_index from the
first remaining entry; expect (panic) if it yields None.  The fuel feeds
the get_free_index loop; outer none means that loop ran out of fuel. -/
def allocatePage (fuel : Nat) : List MemmapEntry → Option (KRes (Option Nat × List MemmapEntry))
  | [] => some (.ok (none, []))
  | e :: rest =>
    if e.typ ≠ EntryType.Usable then
      (allocatePage fuel rest).map (fun r => r.map (fun p => (p.1, e :: p.2)))
    else if e.bitmap.isFull then
      (allocatePage fuel rest).map (fun r => r.map (fun p => (p.1, e :: p.2)))
    else
      match e.bitmap.getFreeIndex fuel with
      | none => none
      | some none => some .panicked
      | some (some (i, bm)) =>
        some (.ok (some (e.base + i * PAGE_SIZE), { e with bitmap := bm } :: rest))

/-- Loop body of get_index_from_address (pmm.rs lines 193-202): while
index * PAGE_SIZE < base + len, return Some index when addr equals
index * PAGE_SIZE.  The loop runs at most (base+len)/PAGE_SIZE + 1 times,
so the fuel passed by getIndexFromAddress below never runs out. -/
def getIndexGo (base len addr : Nat) : Nat → Nat → Option Nat
  | _, 0 => none
  | index, fuel + 1 =>
    if index * PAGE_SIZE < base + len then
      if addr = index * PAGE_SIZE then some index
      else getIndexGo base len addr (index + 1) fuel
    else none

/-- get_index_from_address (pmm.rs lines 193-202).  Note the comparison is
against index * PAGE_SIZE with no entry.base offset: it recovers the
absolute page index addr / PAGE_SIZE, not an index relative to the entry. -/
def getIndexFromAddress (base len addr : Nat) : Option Nat :=
  getIndexGo base len addr 0 (base + len + 1)

/-- BitmapAllocator::free_page (pmm.rs lines 164-190): scan entries; for a
Usable entry the source guard is entry.base > addr && addr <= entry.base +
entry.len (the first comparison is as written in the source); when
get_index_from_address finds an index the bit is cleared via set_free and
the function returns; if no entry matches, panic. -/
def freePage (addr : Nat) : List MemmapEntry → KRes (List MemmapEntry)
  | [] => .panicked
  | e :: rest =>
    if e.typ ≠ EntryType.Usable then
      (freePage addr rest).map (e :: ·)
    else if e.base > addr ∧ addr ≤ e.base + e.len then
      match getIndexFromAddress e.base e.len addr with
      | some i => .ok ({ e with bitmap := e.bitmap.setFree i } :: rest)
      | none => (freePage addr rest).map (e :: ·)
    else
      (freePage addr rest).map (e :: ·)

/-! ## Heap allocator (src/reason/src/memory/heap.rs)

Sizes of the Rust structures involved, on x86_64:
* BlockHeader (u32 size + bool is_used, repr align 8): 8 bytes;
* DoublyLinkedListNode of Block (next and prev pointers plus the zero-sized
  Block payload, repr C): 16 bytes, with the data field at offset 16;
* HeapRegion (total_allocated u64 + DoublyLinkedList head/tail/length): 32;
* VirtualMemoryRegion (base u64, flags u8, length u64, is_used bool): 24;
* SinglyLinkedListNode of VirtualMemoryRegion (next pointer + data): 32;
* NEXT_PTR_SIZE (Option of NonNull): 8.

Block-header memory is modelled as a total function from addresses to
BlockHeader values: the source reads and writes whole 8-byte headers at
computed addresses, and the model mirrors each such read and write.  The
free_blocks doubly-linked list of a region is modelled as the list of its
node addresses from head to tail; a node of block B lives at the payload
address B + HEADER_SIZE, and append_to_address pushes at the tail. -/

/-- Size of BlockHeader (heap.rs lines 57-62). -/
def HEADER_SIZE : Nat := 8

/-- Size of DoublyLinkedListNode of Block, the lower bound on payload sizes
taken in allocate_block (heap.rs line 168). -/
def FREE_NODE_SIZE : Nat := 16

/-- Offset of the data field inside DoublyLinkedListNode of Block, used by
DoublyLinkedListNode::ptr_to_data (linked_list.rs lines 270-274). -/
def NODE_DATA_OFFSET : Nat := 16

/-- NEXT_PTR_SIZE from heap.rs line 53. -/
def NEXT_PTR_SIZE : Nat := 8

/-- Size of the HeapRegion struct (heap.rs lines 125-128). -/
def HEAP_REGION_SIZE : Nat := 32

/-- Size of SinglyLinkedListNode of VirtualMemoryRegion, the NODE_SIZE of
VirtualMemoryManager::allocate_region (vmm.rs line 59). -/
def VM_NODE_SIZE : Nat := 32

/-- BlockHeader from heap.rs lines 57-62. -/
structure BlockHeader where
  size : Nat
  is_used : Bool
deriving DecidableEq, Repr

/-- Block-header memory: the header value stored at each address. -/
def HeapMem : Type := Nat → BlockHeader

/-- BlockPtr::install_headers (heap.rs lines 93-105): write the header at
the block address and at address + HEADER_SIZE + header.size. -/
def installHeaders (addr : Nat) (h : BlockHeader) (mem : HeapMem) : HeapMem :=
  fun a => if a = addr ∨ a = addr + HEADER_SIZE + h.size then h else mem a

/-- BlockPtr::set_is_used (heap.rs lines 107-118): set the is_used flag of
the left header, then of the right header found through the size stored in
the left header. -/
def setIsUsed (addr : Nat) (v : Bool) (mem : HeapMem) : HeapMem :=
  let sz := (mem addr).size
  fun a =>
    if a = addr then { mem addr with is_used := v }
    else if a = addr + HEADER_SIZE + sz then { mem (addr + HEADER_SIZE + sz) with is_used := v }
    else mem a

/-- DoublyLinkedList::remove (linked_list.rs lines 75-113): walk from the
head; a node for which compare holds is skipped, and the first node for
which compare fails is unlinked.  The source additionally asserts that the
list is nonempty on entry; every call modelled below happens on a nonempty
list, so the assertion never fires there. -/
def dllRemove (compare : Nat → Bool) : List Nat → List Nat
  | [] => []
  | n :: rest => if compare n then n :: dllRemove compare rest else rest

/-- HeapRegion (heap.rs lines 125-128) together with the geometry derived
from its containing virtual-memory object:
* payloadStart is HeapRegionPtr::get_payload_address (region address plus
  HEAP_REGION_SIZE);
* endAddr is HeapRegionPtr::get_end_address (start of the VM-object node
  plus the object length);
* freeList is the free_blocks list as node addresses, head first;
* mem stores the block headers. -/
structure HeapRegion where
  payloadStart : Nat
  endAddr : Nat
  totalAllocated : Nat
  freeList : List Nat
  mem : HeapMem

/-- HeapRegionPtr::get_current_address (heap.rs lines 266-268). -/
def HeapRegion.currentAddr (r : HeapRegion) : Nat :=
  r.payloadStart + r.totalAllocated

/-- HeapRegionPtr::add_to_free_list (heap.rs lines 226-232): append a node
at the block payload address and clear the is_used flags of the block. -/
def addToFreeList (r : HeapRegion) (block : Nat) : HeapRegion :=
  { r with freeList := r.freeList ++ [block + HEADER_SIZE],
           mem := setIsUsed block false r.mem }

/-- HeapRegionPtr::remove_from_free_list (heap.rs lines 234-238): remove
with the closure comparing node.ptr_to_data() against the block pointer.
ptr_to_data of a node at address n is n + NODE_DATA_OFFSET. -/
def removeFromFreeList (r : HeapRegion) (block : Nat) : HeapRegion :=
  { r with freeList := dllRemove (fun n => n + NODE_DATA_OFFSET == block) r.freeList }

/-- HeapRegionPtr::allocate_block (heap.rs lines 158-185): bump-allocate a
block of payload size max(size, FREE_NODE_SIZE) at the current address,
install used headers, and return the block address; None when the block
does not fit before endAddr.  The source also debug_asserts that the
current address is 8-byte aligned. -/
def HeapRegion.allocateBlock (r : HeapRegion) (size : Nat) : Option (Nat × HeapRegion) :=
  let current := r.currentAddr
  let sz := max size FREE_NODE_SIZE
  let total_size := 2 * HEADER_SIZE + sz
  if current + total_size > r.endAddr then none
  else
    some (current,
      { r with totalAllocated := r.totalAllocated + total_size,
               mem := installHeaders current { size := sz, is_used := true } r.mem })

/-- HeapRegionPtr::allocate_block_aligned (heap.rs lines 187-224): same as
allocate_block but additionally returns the padding computed as
align_up(current + HEADER_SIZE, alignment) minus the payload address.  The
padding is not added to the reserved size, exactly as in the source. -/
def HeapRegion.allocateBlockAligned (r : HeapRegion) (size alignment : Nat) :
    Option ((Nat × Nat) × HeapRegion) :=
  let current := r.currentAddr
  let payload_address := current + HEADER_SIZE
  let padding := align_up payload_address alignment - payload_address
  let sz := max size FREE_NODE_SIZE
  let total_size := 2 * HEADER_SIZE + sz
  if current + total_size > r.endAddr then none
  else
    some ((current, padding),
      { r with totalAllocated := r.totalAllocated + total_size,
               mem := installHeaders current { size := sz, is_used := true } r.mem })

/-- Fresh heap region as built by ExplicitFreeList::allocate_region
(heap.rs lines 411-424) on top of the region allocator of the VMM
(vmm.rs lines 56-84): the VMM maps pages = div_ceil(size + VM_NODE_SIZE,
PAGE_SIZE) pages at the cursor, the object base is cursor + VM_NODE_SIZE
and its length is pages * PAGE_SIZE; the heap then appends a region node at
the object base, so the region struct sits at base + NEXT_PTR_SIZE and the
payload begins HEAP_REGION_SIZE bytes later. -/
def mkFreshRegion (cursor size : Nat) : HeapRegion :=
  let pages := divCeil (size + VM_NODE_SIZE) PAGE_SIZE
  let base := cursor + VM_NODE_SIZE
  { payloadStart := base + NEXT_PTR_SIZE + HEAP_REGION_SIZE,
    endAddr := cursor + pages * PAGE_SIZE,
    totalAllocated := 0,
    freeList := [],
    mem := fun _ => { size := 0, is_used := true } }

/-- Free-list search loop of ExplicitFreeList::alloc (heap.rs lines
369-392) inside one region, walking the given node list: recover the block
address as node - HEADER_SIZE, and on the first block that is not used and
whose payload size is at least the request, mark it used, remove it from
the free list (scanning the whole list from its head, as the source does)
and return the payload address. -/
def allocSearchNodes (r : HeapRegion) (size : Nat) : List Nat → Option (Nat × HeapRegion)
  | [] => none
  | node :: rest =>
    let block := node - HEADER_SIZE
    if ¬(r.mem block).is_used ∧ (r.mem block).size ≥ size then
      some (block + HEADER_SIZE,
        removeFromFreeList { r with mem := setIsUsed block true r.mem } block)
    else allocSearchNodes r size rest

/-- Outer region loop of the free-list search in ExplicitFreeList::alloc:
first region whose free list yields a block wins. -/
def allocSearchRegions (size : Nat) : List HeapRegion → Option (Nat × List HeapRegion)
  | [] => none
  | r :: rs =>
    match allocSearchNodes r size r.freeList with
    | some (a, r1) => some (a, r1 :: rs)
    | none => (allocSearchRegions size rs).map (fun p => (p.1, r :: p.2))

/-- Free-list search loop of ExplicitFreeList::alloc_aligned (heap.rs
lines 321-349) inside one region: used blocks are skipped; for a free
block the source computes aligned_address = align_up(payload address,
alignment) and then padding = aligned_address - payload SIZE (not the
payload address), accepts when payload size >= size + padding, marks the
block used and returns payload address + padding without removing the node
from the free list.  The subtraction is a u64 subtraction; at the states
used below aligned_address exceeds the payload size, so Nat subtraction
agrees. -/
def allocAlignedSearchNodes (r : HeapRegion) (size alignment : Nat) :
    List Nat → Option (Nat × HeapRegion)
  | [] => none
  | node :: rest =>
    let block := node - HEADER_SIZE
    if (r.mem block).is_used then allocAlignedSearchNodes r size alignment rest
    else
      let aligned_address := align_up (block + HEADER_SIZE) alignment
      let padding := aligned_address - (r.mem block).size
      if (r.mem block).size ≥ size + padding then
        some (block + HEADER_SIZE + padding, { r with mem := setIsUsed block true r.mem })
      else allocAlignedSearchNodes r size alignment rest

/-- Body of the block loop of ExplicitFreeList::free (heap.rs lines
449-561) once the block containing the freed address is found: detect the
previous neighbour through the header just below the block and the next
neighbour just past its right header, and coalesce according to which
neighbours are free. -/
def handleFreeBlock (r : HeapRegion) (block : Nat) : HeapRegion :=
  let block_size := (r.mem block).size
  let block_end := block + block_size + 2 * HEADER_SIZE
  let prev_block : Option Nat :=
    let header_address := block - HEADER_SIZE
    if header_address < r.payloadStart then none
    else
      let header := r.mem header_address
      let prev_addr := block - header.size - 2 * HEADER_SIZE
      if (r.mem prev_addr).is_used then none else some prev_addr
  let next_block : Option Nat :=
    if block_end + HEADER_SIZE ≥ r.currentAddr then none
    else if (r.mem block_end).is_used then none else some block_end
  match prev_block, next_block with
  | none, none =>
    let r1 := addToFreeList r block
    { r1 with mem := setIsUsed block false r1.mem }
  | some prev, some next =>
    let total := (r.mem prev).size + (r.mem block).size + (r.mem next).size + 4 * HEADER_SIZE
    let r1 := removeFromFreeList r prev
    let r2 := removeFromFreeList r1 next
    let r3 := { r2 with mem := installHeaders prev { size := total, is_used := false } r2.mem }
    addToFreeList r3 prev
  | some prev, none =>
    let total := (r.mem prev).size + (r.mem block).size + 2 * HEADER_SIZE
    let r1 := removeFromFreeList r prev
    let r2 := { r1 with mem := installHeaders prev { size := total, is_used := false } r1.mem }
    addToFreeList r2 prev
  | none, some next =>
    let total := (r.mem block).size + (r.mem next).size + 2 * HEADER_SIZE
    let r1 := removeFromFreeList r next
    let r2 := { r1 with mem := installHeaders block { size := total, is_used := false } r1.mem }
    addToFreeList r2 block

/-- Block iteration of ExplicitFreeList::free driven by HeapRegionIterator
(heap.rs lines 288-305 and 436-447): step from the payload start towards
the end address captured at iterator creation, advancing by the block size
read from the current left header plus both headers; the block whose
payload range contains the freed address is handled.  Every block consumes
at least 2 * HEADER_SIZE bytes, so fuel totalAllocated + 1 outlasts the
loop. -/
def freeGoBlocks (addr endIter : Nat) : HeapRegion → Nat → Nat → HeapRegion
  | r, _, 0 => r
  | r, cur, fuel + 1 =>
    if cur = endIter then r
    else
      let block_size := (r.mem cur).size
      let next_cur := cur + block_size + 2 * HEADER_SIZE
      let payload_start := cur + HEADER_SIZE
      let payload_end := payload_start + block_size
      if payload_start ≤ addr ∧ addr < payload_end then
        freeGoBlocks addr endIter (handleFreeBlock r cur) next_cur fuel
      else
        freeGoBlocks addr endIter r next_cur fuel

/-- ExplicitFreeList::free (heap.rs lines 426-564): every region whose
range [payloadStart, endAddr) contains the address runs the block loop;
the source never breaks out of the region loop. -/
def heapFree (addr : Nat) : List HeapRegion → List HeapRegion
  | [] => []
  | r :: rs =>
    let r1 :=
      if r.payloadStart ≤ addr ∧ addr < r.endAddr then
        freeGoBlocks addr r.currentAddr r r.payloadStart (r.totalAllocated + 1)
      else r
    r1 :: heapFree addr rs

/-! ## Page-table walker (src/reason/src/arch/x86_64/paging.rs)

Page-table memory is modelled as a total function from byte addresses of
entries to their u64 values; the source reads entry i of the table at
virtual address t as the u64 at t + 8 * i.  The higher-half direct map
offset is a parameter h.  Frames handed out by the physical allocator
inside get_next_level are modelled by a supply list of fresh frame
addresses; an empty supply models allocate_page returning None, which the
source turns into a panic via expect.  The call into the physical
allocator made by unmap is recorded as the freed frame instead of being
executed, and the invlpg instructions emitted by a walk are collected in a
list. -/

/-- PTE_PRESENT (paging.rs line 19). -/
def PTE_PRESENT : Nat := 1

/-- PTE_WRITEABLE (paging.rs line 20). -/
def PTE_WRITEABLE : Nat := 2

/-- PTE_USER_ACCESSIBLE (paging.rs line 21). -/
def PTE_USER_ACCESSIBLE : Nat := 4

/-- PTE_NOT_EXECUTABLE (paging.rs line 22). -/
def PTE_NOT_EXECUTABLE : Nat := 2 ^ 63

/-- PTE_ADDRESS_MASK (paging.rs line 23). -/
def PTE_ADDRESS_MASK : Nat := 0x000ffffffffff000

/-- VirtualMemoryFlags (memory/mod.rs lines 31-38). -/
structure VMFlags where
  writeable : Bool
  executable : Bool
  user_accessible : Bool
deriving DecidableEq, Repr

/-- Page-table entry memory. -/
def PTMem : Type := Nat → Nat

/-- Single u64 store. -/
def ptWrite (addr v : Nat) (mem : PTMem) : PTMem :=
  fun a => if a = addr then v else mem a

/-- write_bytes zeroing of a freshly allocated table page through the HHDM
window (paging.rs lines 170-174). -/
def ptZeroPage (start : Nat) (mem : PTMem) : PTMem :=
  fun a => if start ≤ a ∧ a < start + PAGE_SIZE then 0 else mem a

/-- set_flags (paging.rs lines 128-142). -/
def setFlags (addr : Nat) (flags : VMFlags) : Nat :=
  let a := addr ||| PTE_PRESENT
  let a := if flags.writeable then a ||| PTE_WRITEABLE else a
  let a := if flags.user_accessible then a ||| PTE_USER_ACCESSIBLE else a
  if ¬flags.executable then a ||| PTE_NOT_EXECUTABLE else a

/-- get_next_level (paging.rs lines 144-181): follow a present entry, or
panic when walking without allocation; otherwise take a frame from the
physical allocator (panic when it is exhausted), check it page-aligned and
non-null, zero it through the HHDM window, install an entry for it and
follow it. -/
def getNextLevel (h : Nat) (mem : PTMem) (fresh : List Nat) (root index : Nat)
    (flags : VMFlags) (shouldAllocate : Bool) : KRes (Nat × PTMem × List Nat) :=
  let entry := mem (root + 8 * index)
  if entry &&& PTE_PRESENT ≠ 0 then .ok ((entry &&& PTE_ADDRESS_MASK) + h, mem, fresh)
  else if ¬shouldAllocate then .panicked
  else
    match fresh with
    | [] => .panicked
    | page :: rest =>
      if page % PAGE_SIZE = 0 ∧ page ≠ 0 then
        let mem1 := ptZeroPage (page + h) mem
        let new_level := setFlags page flags
        let mem2 := ptWrite (root + 8 * index) new_level mem1
        .ok ((new_level &&& PTE_ADDRESS_MASK) + h, mem2, rest)
      else .panicked

/-- Index i4 of a virtual address (VirtualAddress::get_indexes,
paging.rs lines 26-34). -/
def pml4Index (virt : Nat) : Nat := (virt >>> 39) &&& 0x1ff

/-- Index i3 of a virtual address. -/
def pml3Index (virt : Nat) : Nat := (virt >>> 30) &&& 0x1ff

/-- Index i2 of a virtual address. -/
def pml2Index (virt : Nat) : Nat := (virt >>> 21) &&& 0x1ff

/-- Index i1 of a virtual address. -/
def pml1Index (virt : Nat) : Nat := (virt >>> 12) &&& 0x1ff

/-- map (paging.rs lines 37-61): assert both addresses page-aligned, walk
three levels allocating missing tables, and write the final entry into the
PML1 table.  The third component of the result collects the virtual
addresses passed to invlpg during the call; the source performs no TLB
invalidation in map, so it is always empty on success. -/
def mapPage (h : Nat) (mem : PTMem) (fresh : List Nat) (pml4 virt phys : Nat)
    (flags : VMFlags) : KRes (PTMem × List Nat × List Nat) :=
  if ¬(virt % PAGE_SIZE = 0) then .panicked
  else if ¬(phys % PAGE_SIZE = 0) then .panicked
  else
    match getNextLevel h mem fresh pml4 (pml4Index virt) flags true with
    | .panicked => .panicked
    | .ok (pml3, mem1, fresh1) =>
      match getNextLevel h mem1 fresh1 pml3 (pml3Index virt) flags true with
      | .panicked => .panicked
      | .ok (pml2, mem2, fresh2) =>
        match getNextLevel h mem2 fresh2 pml2 (pml2Index virt) flags true with
        | .panicked => .panicked
        | .ok (pml1, mem3, fresh3) =>
          .ok (ptWrite (pml1 + 8 * pml1Index virt) (setFlags phys flags) mem3, fresh3, [])

/-- unmap (paging.rs lines 63-90): assert both addresses page-aligned, walk
three levels without allocating (panicking on an absent level), free the
frame stored in the final entry (recorded in the second component of the
result), clear the entry and invalidate the TLB for the virtual address
(third component). -/
def unmapPage (h : Nat) (mem : PTMem) (pml4 virt phys : Nat) :
    KRes (PTMem × List Nat × List Nat) :=
  if ¬(virt % PAGE_SIZE = 0) then .panicked
  else if ¬(phys % PAGE_SIZE = 0) then .panicked
  else
    match getNextLevel h mem []
        pml4 (pml4Index virt)
        { writeable := false, executable := false, user_accessible := false } false with
    | .panicked => .panicked
    | .ok (pml3, mem1, _) =>
      match getNextLevel h mem1 [] pml3 (pml3Index virt)
          { writeable := false, executable := false, user_accessible := false } false with
      | .panicked => .panicked
      | .ok (pml2, mem2, _) =>
        match getNextLevel h mem2 [] pml2 (pml2Index virt)
            { writeable := false, executable := false, user_accessible := false } false with
        | .panicked => .panicked
        | .ok (pml1, mem3, _) =>
          .ok (ptWrite (pml1 + 8 * pml1Index virt) 0 mem3,
               [mem3 (pml1 + 8 * pml1Index virt) &&& PTE_ADDRESS_MASK], [virt])

/-- Projection of a map call to the list of invlpg targets it executed;
none when the call panicked. -/
def mapInvalidations (h : Nat) (mem : PTMem) (fresh : List Nat) (pml4 virt phys : Nat)
    (flags : VMFlags) : Option (List Nat) :=
  match mapPage h mem fresh pml4 virt phys flags with
  | .ok (_, _, invl) => some invl
  | .panicked => none

/-- Projection of an unmap call to the list of invlpg targets it executed;
none when the call panicked. -/
def unmapInvalidations (h : Nat) (mem : PTMem) (pml4 virt phys : Nat) : Option (List Nat) :=
  match unmapPage h mem pml4 virt phys with
  | .ok (_, _, invl) => some invl
  | .panicked => none

/-! ## States and predicates for the claims about allocate_page (C8, C10) -/

/-- Consistency invariant of an installed bitmap: used_pages counts the set
bits and the bit array covers exactly total_pages bits.  It holds after
install (for regions of at least one page) and is preserved by
allocate_page, but free_page can break it by clearing an already-clear
bit. -/
def Bitmap.Inv (bm : Bitmap) : Prop :=
  bm.data.length = bm.total_pages ∧ bm.used_pages = bm.data.count true

/-- The invariant for every Usable entry of a memory map. -/
def EntriesInv (es : List MemmapEntry) : Prop :=
  ∀ e ∈ es, e.typ = EntryType.Usable → e.bitmap.Inv

/-- allocate_page spins forever on this state: no amount of fuel makes the
embedded loop of get_free_index return. -/
def allocLoopsForever (es : List MemmapEntry) : Prop :=
  ∀ fuel, allocatePage fuel es = none

/-- Memory map for the C8 scenario after PMM initialisation: one Usable
entry with base 0x3000 and length 0x3000 (3 pages, 1 reserved). -/
def mmC8 : List MemmapEntry := installAll [(12288, 12288, EntryType.Usable)]

/-- The C8 memory map after one successful allocation (page 1 handed
out). -/
def mmC8a : List MemmapEntry :=
  [{ base := 12288, len := 12288, typ := EntryType.Usable,
     bitmap := { last_index_used := 2, used_pages := 2, total_pages := 3,
                 data := [true, true, false] } }]

/-- The C8 memory map after free_page(0x2000), which clears the already
clear bit 2 and decrements used_pages: used_pages (1) is now below the
number of set bits (2). -/
def mmC8b : List MemmapEntry :=
  [{ base := 12288, len := 12288, typ := EntryType.Usable,
     bitmap := { last_index_used := 2, used_pages := 1, total_pages := 3,
                 data := [true, true, false] } }]

/-- Memory map for the C1 scenario after PMM initialisation. -/
def mmC1 : List MemmapEntry := installAll [(4096, 16384, EntryType.Usable)]

/-- State of the C1 memory map after one successful page allocation. -/
def mmC1a : List MemmapEntry :=
  [{ base := 4096, len := 16384, typ := EntryType.Usable,
     bitmap := { last_index_used := 2, used_pages := 2, total_pages := 4,
                 data := [true, true, false, false] } }]

/-- Memory map for the C4 scenario after PMM initialisation. -/
def mmC4 : List MemmapEntry := installAll [(12288, 12288, EntryType.Usable)]

/-- Heap region for the C3 scenario. -/
def rC3 : HeapRegion :=
  { payloadStart := 56, endAddr := 256, totalAllocated := 72, freeList := [64],
    mem := fun a => if a = 56 ∨ a = 120 then { size := 56, is_used := false }
                    else { size := 0, is_used := true } }

/-- Heap region for the C2 scenario. -/
def rC2 : HeapRegion :=
  { payloadStart := 1000, endAddr := 1200, totalAllocated := 136, freeList := [1008, 1072],
    mem := fun a =>
      if a = 1000 ∨ a = 1024 then { size := 16, is_used := false }
      else if a = 1032 ∨ a = 1056 then { size := 16, is_used := true }
      else if a = 1064 ∨ a = 1096 then { size := 24, is_used := false }
      else if a = 1104 ∨ a = 1128 then { size := 16, is_used := true }
      else { size := 0, is_used := true } }

/-- Heap region for the C9 scenario. -/
def rC9 : HeapRegion :=
  { payloadStart := 1000, endAddr := 1256, totalAllocated := 160,
    freeList := [1008, 1072, 1136],
    mem := fun a =>
      if a = 1000 ∨ a = 1024 then { size := 16, is_used := false }
      else if a = 1032 ∨ a = 1056 then { size := 16, is_used := true }
      else if a = 1064 ∨ a = 1088 then { size := 16, is_used := false }
      else if a = 1096 ∨ a = 1120 then { size := 16, is_used := true }
      else if a = 1128 ∨ a = 1152 then { size := 16, is_used := false }
      else { size := 0, is_used := true } }

/-- Every Usable entry of the map has a full bitmap. -/
def allUsableFull (es : List MemmapEntry) : Prop :=
  ∀ e ∈ es, e.typ = EntryType.Usable → e.bitmap.isFull = true

instance (bm : Bitmap) : Decidable bm.Inv := by
  unfold Bitmap.Inv
  infer_instance

instance (es : List MemmapEntry) : Decidable (EntriesInv es) := by
  unfold EntriesInv
  infer_instance

/-- Low reserved-bit property of an entry: every bit index below the
reserved count of its length (and inside the bit array) is set. -/
def EntryLowSet (e : MemmapEntry) : Prop :=
  ∀ j, j < reservedBits e.len → j < e.bitmap.total_pages → e.bitmap.isUsed j = true

/-- The low reserved bits of every Usable entry are set. -/
def LowInv (es : List MemmapEntry) : Prop :=
  ∀ e ∈ es, e.typ = EntryType.Usable → EntryLowSet e

/-- Allocator states reachable from initialisation on the raw firmware map
by allocate_page calls alone. -/
inductive ReachAlloc (raw : List (Nat × Nat × EntryType)) : List MemmapEntry → Prop where
  | init : ReachAlloc raw (installAll raw)
  | step (es es2 : List MemmapEntry) (fuel : Nat) (res : Option Nat) :
      ReachAlloc raw es → allocatePage fuel es = some (KRes.ok (res, es2)) →
      ReachAlloc raw es2

/-- Evolution of a memory-map entry under allocate_page: identity on the
descriptor fields and the bitmap size, monotone on the set bits. -/
def EntryEvolve (e e2 : MemmapEntry) : Prop :=
  e2.base = e.base ∧ e2.len = e.len ∧ e2.typ = e.typ ∧
  e2.bitmap.total_pages = e.bitmap.total_pages ∧
  ∀ j, e.bitmap.isUsed j = true → e2.bitmap.isUsed j = true

/-! ## Helper lemmas -/

/-- Reading back the position just cleared in a boolean list yields false,
whether or not the position is inside the list. -/
theorem list_set_getD_false (l : List Bool) (i : Nat) : (l.set i false).getD i false = false := by
  induction l generalizing i with
  | nil => simp
  | cons a t ih =>
    cases i with
    | zero => simp
    | succ n => simpa using ih n

/-! ## Claim C1: free_page and the owning entry

Concrete memory map: a single Usable entry with base 0x1000 and length
0x4000, so pages 0x1000, 0x2000, 0x3000, 0x4000 belong to it and its
bitmap covers 4 pages with 1 reserved low page. -/



/-- Claim C1: after init on a single Usable entry [0x1000, 0x5000),
allocate_page hands out address 0x2000 (owned by the entry, bit 1 set),
yet free_page(0x2000) panics instead of clearing bit 1: the ownership
guard in the source compares entry.base > addr, which is false for every
address inside the entry, so the scan falls through to the panic. -/
theorem C1_free_page_misses_owning_entry :
    allocatePage 10 mmC1 = some (.ok (some 8192, mmC1a)) ∧
    (mmC1a.headD { base := 0, len := 0, typ := EntryType.NotUsable,
                   bitmap := { last_index_used := 0, used_pages := 0, total_pages := 0,
                               data := [] } }).bitmap.isUsed 1 = true ∧
    freePage 8192 mmC1a = .panicked := by
  decide

/-! ## Claim C4: double free of a frame

Concrete memory map: a single Usable entry with base 0x3000 and length
0x3000 (3 pages, 1 reserved).  Address 0x1000 satisfies the source guard
entry.base > addr, and get_index_from_address recovers the absolute index
1, whose bit is clear; free_page clears it again and returns normally. -/


/-- Claim C4 counterexample: freeing an address whose bitmap bit is
already clear does not panic; free_page returns normally after clearing
the clear bit again and decrementing used_pages. -/
theorem C4_counterexample :
    (mmC4.headD { base := 0, len := 0, typ := EntryType.NotUsable,
                  bitmap := { last_index_used := 0, used_pages := 0, total_pages := 0,
                              data := [] } }).bitmap.isUsed 1 = false ∧
    freePage 4096 mmC4 =
      .ok [{ base := 12288, len := 12288, typ := EntryType.Usable,
             bitmap := { last_index_used := 1, used_pages := 0, total_pages := 3,
                         data := [true, false, false] } }] := by
  decide

/-- Claim C4 (amended): free_page performs no double-free check.  When a
Usable entry passes the source ownership guard (entry.base > addr and
addr <= entry.base + entry.len) and get_index_from_address recovers an
index, the call unconditionally clears the bit and decrements used_pages
and returns ok, even when the bit was already clear; the only panic is the
no-entry-matches one. -/
theorem C4_free_page_no_double_free_check (base len addr i : Nat) (bm : Bitmap)
    (h1 : base > addr) (h2 : addr ≤ base + len)
    (h3 : getIndexFromAddress base len addr = some i)
    (_h4 : bm.isUsed i = false) :
    freePage addr [{ base := base, len := len, typ := EntryType.Usable, bitmap := bm }] =
      .ok [{ base := base, len := len, typ := EntryType.Usable, bitmap := bm.setFree i }] ∧
    (bm.setFree i).isUsed i = false ∧
    (bm.setFree i).used_pages = bm.used_pages - 1 := by
  refine ⟨?_, ?_, rfl⟩
  · unfold freePage
    simp [h1, h2, h3]
  · have := list_set_getD_false bm.data i
    simpa [Bitmap.setFree, Bitmap.isUsed] using this

/-- Claim C4 witness: the amended theorem applied to the concrete C4
scenario. -/
theorem C4_witness :
    freePage 4096 [{ base := 12288, len := 12288, typ := EntryType.Usable,
                     bitmap := { last_index_used := 1, used_pages := 1, total_pages := 3,
                                 data := [true, false, false] } }] =
      .ok [{ base := 12288, len := 12288, typ := EntryType.Usable,
             bitmap := Bitmap.setFree { last_index_used := 1, used_pages := 1, total_pages := 3,
                                        data := [true, false, false] } 1 }] ∧
    (Bitmap.setFree { last_index_used := 1, used_pages := 1, total_pages := 3,
                      data := [true, false, false] } 1).isUsed 1 = false ∧
    (Bitmap.setFree { last_index_used := 1, used_pages := 1, total_pages := 3,
                      data := [true, false, false] } 1).used_pages =
      ({ last_index_used := 1, used_pages := 1, total_pages := 3,
         data := [true, false, false] } : Bitmap).used_pages - 1 :=
  C4_free_page_no_double_free_check 12288 12288 4096 1
    { last_index_used := 1, used_pages := 1, total_pages := 3, data := [true, false, false] }
    (by decide) (by decide) (by decide) (by decide)

/-! ## Claim C5: the fresh-region retry of the bump path -/

/-- Claim C5 counterexample: for requested size 4064 the freshly allocated
region has exactly one page, whose usable space after the VM-object node,
the region node and the region header is 4024 bytes, while the block needs
2 headers + 4064 bytes; the in-region bump allocation on the fresh region
returns None and the unchecked unwrap that follows it in
ExplicitFreeList::alloc dereferences None. -/
theorem C5_counterexample :
    ((mkFreshRegion 4096 4064).allocateBlock 4064).isSome = false := by
  decide

/-- Claim C5 (amended): placing a block of the requested size in a freshly
allocated region succeeds exactly when the fixed overhead (VM-object node,
region node pointer, region header and the two block headers) plus the
payload size max(size, FREE_NODE_SIZE) fits in the pages the VMM maps for
the request, i.e. iff 88 + max(size, 16) <= ceil((size + 32) / 4096) *
4096; sizes just below a multiple of PAGE_SIZE violate it. -/
theorem C5_fresh_region_fit_iff (cursor size : Nat) :
    ((mkFreshRegion cursor size).allocateBlock size).isSome = true ↔
      VM_NODE_SIZE + NEXT_PTR_SIZE + HEAP_REGION_SIZE + 2 * HEADER_SIZE +
        max size FREE_NODE_SIZE ≤ divCeil (size + VM_NODE_SIZE) PAGE_SIZE * PAGE_SIZE := by
  unfold HeapRegion.allocateBlock mkFreshRegion HeapRegion.currentAddr
  simp only [VM_NODE_SIZE, NEXT_PTR_SIZE, HEAP_REGION_SIZE, HEADER_SIZE, FREE_NODE_SIZE,
    PAGE_SIZE, divCeil]
  split <;> rename_i hcond
  · simp only [Option.isSome_none, Bool.false_eq_true, false_iff]
    omega
  · simp only [Option.isSome_some, true_iff]
    omega

/-! ## Claim C6: TLB invalidation in map -/

/-- Claim C6 counterexample: a concrete successful map call (empty tables,
three fresh frames available, virt = 0x1000, phys = 0x5000) executes no
invlpg at all, while the claim requires the TLB entry for virt to be
invalidated. -/
theorem C6_counterexample :
    mapInvalidations 0 (fun _ => 0) [4096, 8192, 12288] 0 4096 20480
      { writeable := true, executable := false, user_accessible := false } = some [] ∧
    ([] : List Nat) ≠ [4096] := by
  constructor
  · rfl
  · decide

/-- Lemma: every successful mapPage call has an empty invlpg trace. -/
theorem mapPage_invl_nil (h : Nat) (mem : PTMem) (fresh : List Nat) (pml4 virt phys : Nat)
    (flags : VMFlags) (m : PTMem) (f invl : List Nat)
    (hok : mapPage h mem fresh pml4 virt phys flags = .ok (m, f, invl)) : invl = [] := by
  unfold mapPage at hok
  repeat' split at hok
  all_goals simp_all

/-- Lemma: every successful unmapPage call invalidates exactly the
unmapped virtual address. -/
theorem unmapPage_invl (h : Nat) (mem : PTMem) (pml4 virt phys : Nat)
    (m : PTMem) (f invl : List Nat)
    (hok : unmapPage h mem pml4 virt phys = .ok (m, f, invl)) : invl = [virt] := by
  unfold unmapPage at hok
  repeat' split at hok
  all_goals simp_all

/-- Claim C6 (amended): map never invalidates the TLB: every successful
map call executes no invlpg, while every successful unmap call invalidates
exactly the unmapped virtual address. -/
theorem C6_map_no_invlpg (h : Nat) (mem : PTMem) (fresh : List Nat) (pml4 virt phys : Nat)
    (flags : VMFlags) :
    (mapInvalidations h mem fresh pml4 virt phys flags = none ∨
      mapInvalidations h mem fresh pml4 virt phys flags = some []) ∧
    (unmapInvalidations h mem pml4 virt phys = none ∨
      unmapInvalidations h mem pml4 virt phys = some [virt]) := by
  constructor
  · cases hres : mapPage h mem fresh pml4 virt phys flags with
    | panicked =>
      left
      unfold mapInvalidations
      rw [hres]
    | ok t =>
      right
      obtain ⟨m, f, invl⟩ := t
      unfold mapInvalidations
      rw [hres, mapPage_invl_nil h mem fresh pml4 virt phys flags m f invl hres]
  · cases hres : unmapPage h mem pml4 virt phys with
    | panicked =>
      left
      unfold unmapInvalidations
      rw [hres]
    | ok t =>
      right
      obtain ⟨m, f, invl⟩ := t
      unfold unmapInvalidations
      rw [hres, unmapPage_invl h mem pml4 virt phys m f invl hres]

/-- Claim C6 witness: the amended theorem applied to the concrete input of
the counterexample scenario. -/
theorem C6_witness :
    (mapInvalidations 0 (fun _ => 0) [4096, 8192, 12288] 0 4096 20480
        { writeable := true, executable := false, user_accessible := false } = none ∨
      mapInvalidations 0 (fun _ => 0) [4096, 8192, 12288] 0 4096 20480
        { writeable := true, executable := false, user_accessible := false } = some []) ∧
    (unmapInvalidations 0 (fun _ => 0) 0 4096 20480 = none ∨
      unmapInvalidations 0 (fun _ => 0) 0 4096 20480 = some [4096]) :=
  C6_map_no_invlpg 0 (fun _ => 0) [4096, 8192, 12288] 0 4096 20480
    { writeable := true, executable := false, user_accessible := false }

/-! ## Claim C7: 8-byte alignment of block addresses -/

/-- Claim C7: on a fresh region whose payload start is 8-byte aligned, a
bump allocation of 17 bytes installs a block of payload size 17 (no
rounding to 8 happens), and the following bump allocation places its block
at address 105, which is not 8-byte aligned — contradicting the alignment
invariant and the debug assertion inside allocate_block. -/
theorem C7_block_address_misaligned :
    ((mkFreshRegion 0 100).allocateBlock 17).map (fun p => p.1 % 8) = some 0 ∧
    ((mkFreshRegion 0 100).allocateBlock 17).map (fun p => (p.2.mem 72).size) = some 17 ∧
    (((mkFreshRegion 0 100).allocateBlock 17).bind fun p =>
        (p.2.allocateBlock 8).map fun q => q.1) = some 105 ∧
    ¬ 105 % 8 = 0 ∧ ¬ 17 % 8 = 0 := by
  decide

/-! ## Claim C3: alignment of alloc_aligned results

Concrete region: one free block with left header at 56, payload address
64 and payload size 56, sitting alone on the free list.  A request
alloc_aligned(16, 64) reuses it. -/


/-- Claim C3: the free-list-reuse path of alloc_aligned returns address 72
for the request alloc_aligned(16, 64) on rC3, and 72 is not 64-byte
aligned: the source computes the padding as align_up(payload address,
alignment) minus the payload size instead of minus the payload address,
so the returned address misses the alignment. -/
theorem C3_alloc_aligned_reuse_misaligned :
    (allocAlignedSearchNodes rC3 16 64 rC3.freeList).map (fun p => p.1) = some 72 ∧
    ¬ 72 % 64 = 0 ∧
    align_up 64 64 = 64 := by
  decide

/-! ## Claim C2: the free-list membership invariant

Concrete region with four blocks: X free (size 16, at 1000), S used (size
16, at 1032), A free (size 24, at 1064), G used (size 16, at 1104); the
free list holds the nodes of X and A in that order. -/


/-- Claim C2: alloc(24) on rC2 reuses block A at 1064 and marks it used,
but the node it removes from free_blocks is the head node 1008 of the
unrelated free block X, not the node 1072 of A: after the call the used
block A is still linked on free_blocks while the free block X is not,
violating the membership invariant.  (The compare closure tests
node.ptr_to_data() == block, i.e. node + 16 against node - 8, which never
holds, and DoublyLinkedList::remove unlinks the first node failing its
compare.) -/
theorem C2_used_block_left_on_free_list :
    (allocSearchRegions 24 [rC2]).map (fun p => p.1) = some 1072 ∧
    (allocSearchRegions 24 [rC2]).map (fun p => p.2.map HeapRegion.freeList) = some [[1072]] ∧
    (allocSearchRegions 24 [rC2]).map
        (fun p => ((p.2.headD rC2).mem 1064).is_used) = some true ∧
    (allocSearchRegions 24 [rC2]).map
        (fun p => ((p.2.headD rC2).mem 1000).is_used) = some false := by
  decide

/-! ## Claim C9: coalescing with two free neighbours

Concrete region with five blocks, each of payload size 16: X free at 1000,
S used at 1032, P free at 1064, B used at 1096, N free at 1128; the free
list holds the nodes of X, P, N in that order.  free(1104) frees B, whose
neighbours P and N are both free. -/


/-- Claim C9: free(1104) on rC9 does rewrite the headers of P with the
combined size 16 + 16 + 16 + 4·8 = 80 and pushes P, but the two nodes it
unlinks from free_blocks are the head node 1008 of the unrelated block X
and then the node 1072 of P — the node 1136 of the absorbed neighbour N is
still on the list afterwards (and the free block X is not), so the two
neighbours are not the blocks removed. -/
theorem C9_coalesce_removes_wrong_nodes :
    (heapFree 1104 [rC9]).map HeapRegion.freeList = [[1136, 1072]] ∧
    ((heapFree 1104 [rC9]).headD rC9).mem 1064 = { size := 80, is_used := false } ∧
    1136 ∈ ((heapFree 1104 [rC9]).headD rC9).freeList ∧
    ¬ 1008 ∈ ((heapFree 1104 [rC9]).headD rC9).freeList := by
  decide

/-! ## Claim C8: termination and completeness of allocate_page -/

/-- Lemma: on the broken bitmap of mmC8b (used_pages below the number of
set bits, all set bits at positions up to used_pages), the get_free_index
loop never terminates: the hint scans positions 0 and 1, both set, resets
whenever it passes used_pages = 1, and never reaches the clear bit 2. -/
theorem gfi_bad_loops : ∀ fuel l,
    Bitmap.getFreeIndex
      { last_index_used := l, used_pages := 1, total_pages := 3,
        data := [true, true, false] } fuel = none := by
  intro fuel
  induction fuel with
  | zero => intro l; rfl
  | succ n ih =>
    intro l
    unfold Bitmap.getFreeIndex
    rw [if_pos (by decide : (1 : Nat) < 3)]
    by_cases hl : 1 < l
    · have hh : Bitmap.hint
          { last_index_used := l, used_pages := 1, total_pages := 3,
            data := [true, true, false] } = 0 := by
        unfold Bitmap.hint
        exact if_pos hl
      rw [hh, if_pos (show Bitmap.isUsed
          { last_index_used := l, used_pages := 1, total_pages := 3,
            data := [true, true, false] } 0 = true by rfl)]
      exact ih 1
    · have hh : Bitmap.hint
          { last_index_used := l, used_pages := 1, total_pages := 3,
            data := [true, true, false] } = l := by
        unfold Bitmap.hint
        exact if_neg hl
      rw [hh]
      interval_cases l
      · rw [if_pos (show Bitmap.isUsed
            { last_index_used := 0, used_pages := 1, total_pages := 3,
              data := [true, true, false] } 0 = true by rfl)]
        exact ih 1
      · rw [if_pos (show Bitmap.isUsed
            { last_index_used := 1, used_pages := 1, total_pages := 3,
              data := [true, true, false] } 1 = true by rfl)]
        exact ih 2

/-- Claim C8 counterexample: starting from the installed map mmC8, one
allocate_page (returning 0x4000) followed by free_page(0x2000) — which
passes the source ownership guard of a later entry and clears the already
clear absolute bit 2 — reaches the state mmC8b, whose single Usable entry
is not full; yet allocate_page on mmC8b runs forever for every amount of
fuel, instead of terminating with the address of the clear bit. -/
theorem C8_counterexample :
    allocatePage 10 mmC8 = some (.ok (some 16384, mmC8a)) ∧
    freePage 8192 mmC8a = .ok mmC8b ∧
    (∀ e ∈ mmC8b, e.typ = EntryType.Usable ∧ e.bitmap.isFull = false) ∧
    allocLoopsForever mmC8b := by
  refine ⟨by decide, by decide, by decide, ?_⟩
  intro fuel
  have hstep : allocatePage fuel mmC8b =
      (match Bitmap.getFreeIndex
          { last_index_used := 2, used_pages := 1, total_pages := 3,
            data := [true, true, false] } fuel with
        | none => none
        | some none => some KRes.panicked
        | some (some (i, bm)) =>
          some (KRes.ok (some (12288 + i * PAGE_SIZE),
            [{ base := 12288, len := 12288, typ := EntryType.Usable, bitmap := bm }]))) := rfl
  rw [hstep, gfi_bad_loops fuel 2]

/-- Lemma: the clamped hint never exceeds used_pages. -/
theorem hint_le_used (bm : Bitmap) : bm.hint ≤ bm.used_pages := by
  unfold Bitmap.hint
  split <;> omega

/-- Lemma: one unfolding of the get_free_index loop. -/
theorem gfi_step (bm : Bitmap) (n : Nat) :
    bm.getFreeIndex (n + 1) =
      if bm.used_pages < bm.total_pages then
        if bm.isUsed bm.hint = true then
          Bitmap.getFreeIndex { bm with last_index_used := bm.hint + 1 } n
        else some (some (bm.hint, bm.mark bm.hint))
      else some none := rfl

/-- Lemma: a get_free_index run that terminates keeps its result when
given more fuel. -/
theorem gfi_mono (fuel : Nat) : ∀ (bm : Bitmap) (r : Option (Nat × Bitmap)),
    bm.getFreeIndex fuel = some r → ∀ fuel2, fuel ≤ fuel2 →
    bm.getFreeIndex fuel2 = some r := by
  induction fuel with
  | zero =>
    intro bm r h
    simp [Bitmap.getFreeIndex] at h
  | succ n ih =>
    intro bm r h fuel2 hle
    obtain ⟨m, rfl⟩ : ∃ m, fuel2 = m + 1 := ⟨fuel2 - 1, by omega⟩
    rw [gfi_step] at h ⊢
    by_cases hc : bm.used_pages < bm.total_pages
    · rw [if_pos hc] at h ⊢
      by_cases hb : bm.isUsed bm.hint = true
      · rw [if_pos hb] at h ⊢
        exact ih _ r h m (by omega)
      · rw [if_neg hb] at h ⊢
        exact h
    · rw [if_neg hc] at h ⊢
      exact h

/-- Lemma: a successful get_free_index returns an index at most used_pages
whose bit was clear, with the bitmap updated accordingly: the bit set,
used_pages incremented, the hint just past the index. -/
theorem gfi_sound (fuel : Nat) : ∀ (bm : Bitmap) (i : Nat) (bm2 : Bitmap),
    bm.getFreeIndex fuel = some (some (i, bm2)) →
    bm.isUsed i = false ∧ i ≤ bm.used_pages ∧ bm.used_pages < bm.total_pages ∧
    bm2 = { bm with data := bm.data.set i true, used_pages := bm.used_pages + 1,
                    last_index_used := i + 1 } := by
  induction fuel with
  | zero =>
    intro bm i bm2 h
    simp [Bitmap.getFreeIndex] at h
  | succ n ih =>
    intro bm i bm2 h
    rw [gfi_step] at h
    by_cases hc : bm.used_pages < bm.total_pages
    · rw [if_pos hc] at h
      by_cases hb : bm.isUsed bm.hint = true
      · rw [if_pos hb] at h
        exact ih { bm with last_index_used := bm.hint + 1 } i bm2 h
      · rw [if_neg hb] at h
        have h2 : (some (some (bm.hint, bm.mark bm.hint)) :
            Option (Option (Nat × Bitmap))) = some (some (i, bm2)) := h
        have h3 : bm.hint = i ∧ bm.mark bm.hint = bm2 := by
          have := Option.some.inj (Option.some.inj h2)
          exact ⟨congrArg Prod.fst this, congrArg Prod.snd this⟩
        obtain ⟨h4, h5⟩ := h3
        subst h4
        refine ⟨by simpa using hb, hint_le_used bm, hc, ?_⟩
        rw [← h5]
        rfl
    · rw [if_neg hc] at h
      exact absurd h (by simp)

/-- Lemma: get_free_index never reports an empty bitmap while used_pages
is below total_pages. -/
theorem gfi_ne_some_none (fuel : Nat) : ∀ (bm : Bitmap),
    bm.used_pages < bm.total_pages → bm.getFreeIndex fuel ≠ some none := by
  induction fuel with
  | zero =>
    intro bm _
    simp [Bitmap.getFreeIndex]
  | succ n ih =>
    intro bm hc
    rw [gfi_step, if_pos hc]
    by_cases hb : bm.isUsed bm.hint = true
    · rw [if_pos hb]
      exact ih _ hc
    · rw [if_neg hb]
      simp

/-- Lemma: a list of booleans whose first n positions all read true has at
least n true entries. -/
theorem count_prefix_true (l : List Bool) : ∀ n, n ≤ l.length →
    (∀ j, j < n → l.getD j false = true) → n ≤ l.count true := by
  induction l with
  | nil =>
    intro n hn _
    simpa using hn
  | cons a t ih =>
    intro n hn hall
    cases n with
    | zero => exact Nat.zero_le _
    | succ m =>
      have ha : a = true := hall 0 (Nat.succ_pos m)
      subst ha
      have hrec := ih m (by simpa using hn) (fun j hj => hall (j + 1) (by omega))
      have hcount : (true :: t).count true = t.count true + 1 := by simp
      rw [hcount]
      omega

/-- Lemma: under the bitmap invariant, a non-full bitmap has a clear bit
at an index not beyond used_pages. -/
theorem exists_clear (bm : Bitmap) (hinv : bm.Inv)
    (hlt : bm.used_pages < bm.total_pages) :
    ∃ j, j ≤ bm.used_pages ∧ bm.isUsed j = false := by
  by_contra hcon
  push_neg at hcon
  have hall : ∀ j, j < bm.used_pages + 1 → bm.data.getD j false = true := by
    intro j hj
    have := hcon j (by omega)
    simpa [Bitmap.isUsed] using this
  have hlen : bm.used_pages + 1 ≤ bm.data.length := by
    rw [hinv.1]
    omega
  have := count_prefix_true bm.data (bm.used_pages + 1) hlen hall
  rw [← hinv.2] at this
  omega

/-- Lemma: running get_free_index is the same as running it with the hint
already clamped into the field. -/
theorem gfi_hint_clamp (bm : Bitmap) (fuel : Nat) :
    bm.getFreeIndex fuel =
      Bitmap.getFreeIndex { bm with last_index_used := bm.hint } fuel := by
  cases fuel with
  | zero => rfl
  | succ n =>
    have hh : Bitmap.hint { bm with last_index_used := bm.hint } = bm.hint := by
      unfold Bitmap.hint
      rcases Nat.lt_or_ge bm.used_pages bm.last_index_used with hcase | hcase
      · simp only [if_pos hcase]
        simp
      · have h2 : ¬ bm.used_pages < bm.last_index_used := by omega
        simp only [if_neg h2]
    rw [gfi_step, gfi_step, hh]
    rfl

/-- Lemma: when a clear bit lies between the (already clamped) hint and
used_pages, the scan terminates successfully given enough fuel. -/
theorem gfi_findUp : ∀ (k : Nat) (bm : Bitmap),
    bm.used_pages < bm.total_pages →
    bm.last_index_used ≤ bm.used_pages →
    bm.used_pages + 1 - bm.last_index_used = k →
    (∃ j, bm.last_index_used ≤ j ∧ j ≤ bm.used_pages ∧ bm.isUsed j = false) →
    ∃ fuel0, ∀ fuel, fuel0 ≤ fuel →
      ∃ i bm2, bm.getFreeIndex fuel = some (some (i, bm2)) := by
  intro k
  induction k with
  | zero =>
    intro bm _ hle hk _
    omega
  | succ m ih =>
    intro bm hc hle hk hex
    obtain ⟨j, hj1, hj2, hj3⟩ := hex
    have hh : bm.hint = bm.last_index_used := by
      unfold Bitmap.hint
      split <;> omega
    by_cases hb : bm.isUsed bm.last_index_used = true
    · have hjne : bm.last_index_used ≠ j := by
        intro he
        rw [he] at hb
        rw [hj3] at hb
        cases hb
      obtain ⟨fuel0, hfu⟩ := ih { bm with last_index_used := bm.last_index_used + 1 }
        hc (by simp; omega) (by simp; omega)
        ⟨j, by simp; omega, hj2, hj3⟩
      refine ⟨fuel0 + 1, fun fuel hf => ?_⟩
      obtain ⟨n, rfl⟩ : ∃ n, fuel = n + 1 := ⟨fuel - 1, by omega⟩
      rw [gfi_step, if_pos hc, hh, if_pos hb]
      exact hfu n (by omega)
    · refine ⟨1, fun fuel hf => ?_⟩
      obtain ⟨n, rfl⟩ : ∃ n, fuel = n + 1 := ⟨fuel - 1, by omega⟩
      refine ⟨bm.hint, bm.mark bm.hint, ?_⟩
      rw [gfi_step, if_pos hc, if_neg (by rw [hh]; exact hb)]

/-- Lemma: when every bit from the (already clamped) hint through
used_pages is set, the scan walks past them and continues as if the hint
were used_pages + 1. -/
theorem gfi_skip : ∀ (k : Nat) (bm : Bitmap),
    bm.used_pages < bm.total_pages →
    bm.last_index_used + k = bm.used_pages + 1 →
    (∀ j, bm.last_index_used ≤ j → j ≤ bm.used_pages → bm.isUsed j = true) →
    ∀ fuel, bm.getFreeIndex (k + fuel) =
      Bitmap.getFreeIndex { bm with last_index_used := bm.used_pages + 1 } fuel := by
  intro k
  induction k with
  | zero =>
    intro bm _ hk _ fuel
    have heq : { bm with last_index_used := bm.used_pages + 1 } = bm := by
      have h1 : bm.used_pages + 1 = bm.last_index_used := by omega
      rw [h1]
    rw [Nat.zero_add, heq]
  | succ m ih =>
    intro bm hc hk hall fuel
    have hle : bm.last_index_used ≤ bm.used_pages := by omega
    have hh : bm.hint = bm.last_index_used := by
      unfold Bitmap.hint
      split <;> omega
    have hb : bm.isUsed bm.last_index_used = true := hall _ le_rfl hle
    have harith : m + 1 + fuel = m + fuel + 1 := by omega
    rw [harith, gfi_step, if_pos hc, hh, if_pos hb]
    exact ih { bm with last_index_used := bm.last_index_used + 1 } hc (by simp; omega)
      (fun j hj1 hj2 => hall j (by simp at hj1; omega) hj2) fuel

/-- Lemma: under the bitmap invariant a non-full bitmap always yields an
index, given enough fuel, from any hint position. -/
theorem gfi_succeeds (bm : Bitmap) (hinv : bm.Inv)
    (hc : bm.used_pages < bm.total_pages) :
    ∃ fuel0, ∀ fuel, fuel0 ≤ fuel →
      ∃ i bm2, bm.getFreeIndex fuel = some (some (i, bm2)) := by
  obtain ⟨j0, hj0le, hj0⟩ := exists_clear bm hinv hc
  have hcle : Bitmap.hint bm ≤ bm.used_pages := hint_le_used bm
  by_cases hex : ∃ j, bm.hint ≤ j ∧ j ≤ bm.used_pages ∧ bm.isUsed j = false
  · obtain ⟨j, hj1, hj2, hj3⟩ := hex
    obtain ⟨fuel0, hfu⟩ := gfi_findUp (bm.used_pages + 1 - bm.hint)
      { bm with last_index_used := bm.hint } hc (by simpa using hcle) (by simp)
      ⟨j, by simpa using hj1, hj2, hj3⟩
    refine ⟨fuel0, fun fuel hf => ?_⟩
    rw [gfi_hint_clamp bm fuel]
    exact hfu fuel hf
  · push_neg at hex
    have hallset : ∀ j, bm.hint ≤ j → j ≤ bm.used_pages → bm.isUsed j = true := by
      intro j hj1 hj2
      have := hex j hj1 hj2
      cases hx : bm.isUsed j
      · exact absurd hx this
      · rfl
    have hskip := gfi_skip (bm.used_pages + 1 - bm.hint)
      { bm with last_index_used := bm.hint } hc (by simp; omega)
      (fun j hj1 hj2 => hallset j (by simpa using hj1) hj2)
    have hclamp2 : ∀ fuel,
        Bitmap.getFreeIndex
            { Bitmap.mk bm.hint bm.used_pages bm.total_pages bm.data with
              last_index_used := bm.used_pages + 1 } fuel =
          Bitmap.getFreeIndex { bm with last_index_used := 0 } fuel := by
      intro fuel
      have h1 := gfi_hint_clamp
        { bm with last_index_used := bm.used_pages + 1 } fuel
      have hh : Bitmap.hint { bm with last_index_used := bm.used_pages + 1 } = 0 := by
        unfold Bitmap.hint
        simp
      rw [hh] at h1
      exact h1
    obtain ⟨fuel0, hfu⟩ := gfi_findUp (bm.used_pages + 1)
      { bm with last_index_used := 0 } hc (by simp) (by simp)
      ⟨j0, by simp, hj0le, hj0⟩
    refine ⟨bm.used_pages + 1 - bm.hint + fuel0, fun fuel hf => ?_⟩
    obtain ⟨n, hn, rfl⟩ : ∃ n, fuel0 ≤ n ∧ fuel = bm.used_pages + 1 - bm.hint + n :=
      ⟨fuel - (bm.used_pages + 1 - bm.hint), by omega, by omega⟩
    rw [gfi_hint_clamp bm, hskip n, hclamp2 n]
    exact hfu n hn


/-- Lemma: one unfolding of the allocate_page entry loop. -/
theorem allocatePage_cons (fuel : Nat) (e : MemmapEntry) (rest : List MemmapEntry) :
    allocatePage fuel (e :: rest) =
      if e.typ ≠ EntryType.Usable then
        (allocatePage fuel rest).map (fun r => r.map (fun p => (p.1, e :: p.2)))
      else if e.bitmap.isFull then
        (allocatePage fuel rest).map (fun r => r.map (fun p => (p.1, e :: p.2)))
      else
        match e.bitmap.getFreeIndex fuel with
        | none => none
        | some none => some .panicked
        | some (some (i, bm)) =>
          some (.ok (some (e.base + i * PAGE_SIZE), { e with bitmap := bm } :: rest)) := rfl

/-- Claim C8 (amended): provided every Usable entry satisfies the bitmap
invariant (used_pages equal to the number of set bits, the bit array
covering total_pages bits) — which holds after init on entries of at least
a page and is preserved by allocate_page, but which free_page can destroy
by clearing an already-clear bit — allocate_page terminates for every
sufficient fuel without panicking, returns None (with the map unchanged)
exactly when every Usable entry is full, and otherwise returns the address
entry.base + i * PAGE_SIZE of the index i found by the next-fit scan in
the first non-full Usable entry, whose bit was clear. -/
theorem C8_allocate_page_terminates (es : List MemmapEntry) (hinv : EntriesInv es) :
    ∃ fuel0, ∀ fuel, fuel0 ≤ fuel →
      ∃ r, allocatePage fuel es = some r ∧ r ≠ KRes.panicked ∧
        (r = KRes.ok (none, es) ↔ allUsableFull es) ∧
        (∀ a es2, r = KRes.ok (some a, es2) →
          ∃ e, e ∈ es ∧ ∃ i, e.typ = EntryType.Usable ∧ e.bitmap.isFull = false ∧
            e.bitmap.isUsed i = false ∧ i ≤ e.bitmap.used_pages ∧
            i < e.bitmap.total_pages ∧ a = e.base + i * PAGE_SIZE) := by
  induction es with
  | nil =>
    refine ⟨0, fun fuel _ => ⟨.ok (none, []), rfl, by simp, ?_, by simp⟩⟩
    constructor
    · intro _ e he
      exact absurd he (List.not_mem_nil e)
    · intro _
      rfl
  | cons e rest ih =>
    have hinvrest : EntriesInv rest := fun x hx hu => hinv x (List.mem_cons_of_mem _ hx) hu
    have hskipfull : ∀ (hcond : e.typ ≠ EntryType.Usable ∨ e.bitmap.isFull = true),
        (∃ fuel0, ∀ fuel, fuel0 ≤ fuel →
          ∃ r, allocatePage fuel (e :: rest) = some r ∧ r ≠ KRes.panicked ∧
            (r = KRes.ok (none, e :: rest) ↔ allUsableFull (e :: rest)) ∧
            (∀ a es2, r = KRes.ok (some a, es2) →
              ∃ e2, e2 ∈ e :: rest ∧ ∃ i, e2.typ = EntryType.Usable ∧
                e2.bitmap.isFull = false ∧ e2.bitmap.isUsed i = false ∧
                i ≤ e2.bitmap.used_pages ∧ i < e2.bitmap.total_pages ∧
                a = e2.base + i * PAGE_SIZE)) := by
      intro hcond
      obtain ⟨fuel0, hres⟩ := ih hinvrest
      refine ⟨fuel0, fun fuel hf => ?_⟩
      obtain ⟨r, hr, hnp, hiff, hsome⟩ := hres fuel hf
      have hrew : allocatePage fuel (e :: rest) =
          some (r.map (fun p => (p.1, e :: p.2))) := by
        rw [allocatePage_cons]
        rcases hcond with hcond | hcond
        · rw [if_pos hcond, hr]
          rfl
        · by_cases htyp : e.typ ≠ EntryType.Usable
          · rw [if_pos htyp, hr]
            rfl
          · rw [if_neg htyp, if_pos hcond, hr]
            rfl
      refine ⟨r.map (fun p => (p.1, e :: p.2)), hrew, ?_, ?_, ?_⟩
      · cases r with
        | panicked => exact absurd rfl hnp
        | ok p => simp [KRes.map]
      · cases r with
        | panicked => exact absurd rfl hnp
        | ok p =>
          obtain ⟨o, l⟩ := p
          simp only [KRes.map]
          constructor
          · intro hx
            have h1 : o = none ∧ e :: l = e :: rest := by
              have := KRes.ok.inj hx
              exact ⟨congrArg Prod.fst this, congrArg Prod.snd this⟩
            obtain ⟨rfl, h2⟩ := h1
            have h3 : l = rest := by
              injection h2 with h21 h22
            have hres2 : allUsableFull rest := hiff.mp (by rw [h3])
            intro e2 he2 hu2
            rcases List.mem_cons.mp he2 with rfl | he3
            · rcases hcond with hcond | hcond
              · exact absurd hu2 hcond
              · exact hcond
            · exact hres2 e2 he3 hu2
          · intro hall
            have hres2 : KRes.ok (o, l) = KRes.ok (none, rest) := hiff.mpr
              (fun e2 he2 hu2 => hall e2 (List.mem_cons_of_mem _ he2) hu2)
            have h1 : o = none ∧ l = rest := by
              have := KRes.ok.inj hres2
              exact ⟨congrArg Prod.fst this, congrArg Prod.snd this⟩
            rw [h1.1, h1.2]
      · intro a es2 hx
        cases r with
        | panicked => exact absurd rfl hnp
        | ok p =>
          obtain ⟨o, l⟩ := p
          simp only [KRes.map] at hx
          have h1 : o = some a ∧ e :: l = es2 := by
            have := KRes.ok.inj hx
            exact ⟨congrArg Prod.fst this, congrArg Prod.snd this⟩
          obtain ⟨e2, he2, i, hprops⟩ := hsome a l (by rw [h1.1])
          exact ⟨e2, List.mem_cons_of_mem _ he2, i, hprops⟩
    by_cases htyp : e.typ = EntryType.Usable
    · by_cases hfull : e.bitmap.isFull = true
      · exact hskipfull (Or.inr hfull)
      · have hInv_e : e.bitmap.Inv := hinv e (List.mem_cons_self e rest) htyp
        have hused : e.bitmap.used_pages < e.bitmap.total_pages := by
          have h1 : ¬ e.bitmap.total_pages = e.bitmap.used_pages := by
            intro hx
            exact hfull (by simp [Bitmap.isFull, hx])
          have h2 : e.bitmap.used_pages ≤ e.bitmap.data.length :=
            hInv_e.2 ▸ List.count_le_length true e.bitmap.data
          have h3 : e.bitmap.data.length = e.bitmap.total_pages := hInv_e.1
          omega
        obtain ⟨fuel0, hsucc⟩ := gfi_succeeds e.bitmap hInv_e hused
        refine ⟨fuel0, fun fuel hf => ?_⟩
        obtain ⟨i, bm2, hgfi⟩ := hsucc fuel hf
        obtain ⟨hclear, hle, _, hbm2⟩ := gfi_sound fuel e.bitmap i bm2 hgfi
        refine ⟨.ok (some (e.base + i * PAGE_SIZE), { e with bitmap := bm2 } :: rest),
          ?_, by simp, ?_, ?_⟩
        · rw [allocatePage_cons, if_neg (by simp [htyp]), if_neg hfull, hgfi]
        · constructor
          · intro hx
            have := KRes.ok.inj hx
            have h1 : (some (e.base + i * PAGE_SIZE) : Option Nat) = none :=
              congrArg Prod.fst this
            cases h1
          · intro hall
            exact absurd (hall e (List.mem_cons_self e rest) htyp) hfull
        · intro a es2 hx
          have := KRes.ok.inj hx
          have h1 : (some (e.base + i * PAGE_SIZE) : Option Nat) = some a :=
            congrArg Prod.fst this
          refine ⟨e, List.mem_cons_self e rest, i, htyp, by simpa using hfull, hclear,
            hle, by omega, (Option.some.inj h1).symm⟩
    · exact hskipfull (Or.inl htyp)


/-- Claim C8 witness: the amended theorem applied to the concrete
installed map mmC8, whose single Usable entry satisfies the invariant. -/
theorem C8_witness :
    ∃ fuel0, ∀ fuel, fuel0 ≤ fuel →
      ∃ r, allocatePage fuel mmC8 = some r ∧ r ≠ KRes.panicked ∧
        (r = KRes.ok (none, mmC8) ↔ allUsableFull mmC8) ∧
        (∀ a es2, r = KRes.ok (some a, es2) →
          ∃ e, e ∈ mmC8 ∧ ∃ i, e.typ = EntryType.Usable ∧ e.bitmap.isFull = false ∧
            e.bitmap.isUsed i = false ∧ i ≤ e.bitmap.used_pages ∧
            i < e.bitmap.total_pages ∧ a = e.base + i * PAGE_SIZE) :=
  C8_allocate_page_terminates mmC8 (by decide)

/-! ## Claim C10: reserved metadata pages after install -/



/-- Lemma: writing inside the list and reading the same position gives the
written value. -/
theorem list_getD_set_self (l : List Bool) (i : Nat) (b : Bool) (h : i < l.length) :
    (l.set i b).getD i false = b := by
  induction l generalizing i with
  | nil => simp at h
  | cons a t ih =>
    cases i with
    | zero => simp
    | succ n => simpa using ih n (by simpa using h)

/-- Lemma: writing one position leaves reads of other positions
unchanged. -/
theorem list_getD_set_ne (l : List Bool) (i j : Nat) (b : Bool) (h : i ≠ j) :
    (l.set i b).getD j false = l.getD j false := by
  induction l generalizing i j with
  | nil => simp
  | cons a t ih =>
    cases i with
    | zero =>
      cases j with
      | zero => exact absurd rfl h
      | succ m => simp
    | succ n =>
      cases j with
      | zero => simp
      | succ m => simpa using ih n m (by omega)

/-- Lemma: setting a bit true never clears a set bit. -/
theorem list_getD_set_mono (l : List Bool) (i j : Nat)
    (h : l.getD j false = true) : (l.set i true).getD j false = true := by
  by_cases hij : i = j
  · subst hij
    by_cases hlen : i < l.length
    · exact list_getD_set_self l i true hlen
    · rw [List.set_eq_of_length_le (by omega)]
      exact h
  · rw [list_getD_set_ne l i j true hij]
    exact h

/-- Lemma: installBits adds exactly its count to used_pages and changes no
other scalar field. -/
theorem installBits_fields (n : Nat) (bm : Bitmap) :
    (installBits n bm).used_pages = bm.used_pages + n ∧
    (installBits n bm).last_index_used = bm.last_index_used ∧
    (installBits n bm).total_pages = bm.total_pages ∧
    (installBits n bm).data.length = bm.data.length := by
  induction n with
  | zero => exact ⟨rfl, rfl, rfl, rfl⟩
  | succ m ih =>
    obtain ⟨h1, h2, h3, h4⟩ := ih
    refine ⟨?_, ?_, ?_, ?_⟩ <;>
      simp only [installBits, Bitmap.setUsed, List.length_set] <;> omega

/-- Lemma: installBits sets every bit index below its count that lies
inside the bit array. -/
theorem installBits_isUsed : ∀ (n : Nat) (bm : Bitmap) (j : Nat), j < n →
    j < bm.data.length → (installBits n bm).isUsed j = true := by
  intro n
  induction n with
  | zero =>
    intro bm j hj _
    omega
  | succ m ih =>
    intro bm j hj hlen
    show ((installBits m bm).setUsed m).isUsed j = true
    unfold Bitmap.setUsed Bitmap.isUsed
    simp only []
    by_cases hjm : j = m
    · subst hjm
      exact list_getD_set_self _ j true (by rw [(installBits_fields j bm).2.2.2]; omega)
    · rw [list_getD_set_ne _ m j true (by omega)]
      exact ih bm j (by omega) hlen


/-- Lemma: entry evolution is reflexive. -/
theorem entryEvolve_refl (e : MemmapEntry) : EntryEvolve e e :=
  ⟨rfl, rfl, rfl, rfl, fun _ h => h⟩

/-- Lemma: pointwise reflexivity of the evolution relation on a list. -/
theorem forall2_evolve_refl : ∀ l : List MemmapEntry, List.Forall₂ EntryEvolve l l := by
  intro l
  induction l with
  | nil => exact .nil
  | cons a t ih => exact .cons (entryEvolve_refl a) ih

/-- Lemma: a successful allocate_page evolves every entry: descriptors and
bitmap sizes are unchanged and set bits are never cleared. -/
theorem allocatePage_evolve (fuel : Nat) : ∀ es res es2,
    allocatePage fuel es = some (KRes.ok (res, es2)) →
    List.Forall₂ EntryEvolve es es2 := by
  intro es
  induction es with
  | nil =>
    intro res es2 h
    have h2 := KRes.ok.inj (Option.some.inj h)
    have h3 : ([] : List MemmapEntry) = es2 := congrArg Prod.snd h2
    rw [← h3]
    exact List.Forall₂.nil
  | cons e rest ih =>
    intro res es2 h
    rw [allocatePage_cons] at h
    have hskip : ∀ (hs : allocatePage fuel (e :: rest) = some (KRes.ok (res, es2))),
        (allocatePage fuel rest).map (fun r => r.map (fun p => (p.1, e :: p.2))) =
          some (KRes.ok (res, es2)) →
        List.Forall₂ EntryEvolve (e :: rest) es2 := by
      intro _ hmap
      cases hrest : allocatePage fuel rest with
      | none =>
        rw [hrest] at hmap
        exact Option.noConfusion hmap
      | some r =>
        rw [hrest] at hmap
        cases r with
        | panicked => exact KRes.noConfusion (Option.some.inj hmap)
        | ok p =>
          obtain ⟨o, l⟩ := p
          have h2 := KRes.ok.inj (Option.some.inj hmap)
          have h3 : e :: l = es2 := congrArg Prod.snd h2
          rw [← h3]
          exact .cons (entryEvolve_refl e) (ih o l hrest)
    by_cases htyp : e.typ ≠ EntryType.Usable
    · rw [if_pos htyp] at h
      exact hskip (by rw [allocatePage_cons, if_pos htyp]; exact h) h
    · rw [if_neg htyp] at h
      by_cases hfull : e.bitmap.isFull = true
      · rw [if_pos hfull] at h
        exact hskip (by rw [allocatePage_cons, if_neg htyp, if_pos hfull]; exact h) h
      · rw [if_neg hfull] at h
        cases hgfi : e.bitmap.getFreeIndex fuel with
        | none =>
          rw [hgfi] at h
          exact Option.noConfusion h
        | some o2 =>
          rw [hgfi] at h
          cases o2 with
          | none => exact KRes.noConfusion (Option.some.inj h)
          | some p =>
            obtain ⟨i, bm2⟩ := p
            have h2 := KRes.ok.inj (Option.some.inj h)
            have h3 : { e with bitmap := bm2 } :: rest = es2 := congrArg Prod.snd h2
            rw [← h3]
            obtain ⟨hclear, hle, hlt, hbm2⟩ := gfi_sound fuel e.bitmap i bm2 hgfi
            refine .cons ⟨rfl, rfl, rfl, ?_, ?_⟩ (forall2_evolve_refl rest)
            · rw [hbm2]
            · intro j hj
              rw [hbm2]
              have := list_getD_set_mono e.bitmap.data i j (by simpa [Bitmap.isUsed] using hj)
              simpa [Bitmap.isUsed] using this

/-- Lemma: entry evolution preserves the low reserved-bit property of the
whole map. -/
theorem lowInv_evolve : ∀ es es2, List.Forall₂ EntryEvolve es es2 →
    LowInv es → LowInv es2 := by
  intro es es2 hf
  induction hf with
  | nil => exact fun h => h
  | cons he ht ih =>
    intro hlow e2 he2 hu2
    rcases List.mem_cons.mp he2 with rfl | hmem
    · obtain ⟨hb, hl, htp, htot, hmono⟩ := he
      have hlowa := hlow _ (List.mem_cons_self _ _) (by rw [← htp]; exact hu2)
      intro j hj1 hj2
      exact hmono j (hlowa j (by rwa [hl] at hj1) (by rwa [htot] at hj2))
    · exact ih (fun x hx hux => hlow x (List.mem_cons_of_mem _ hx) hux) e2 hmem hu2

/-- Lemma: immediately after initialisation the low reserved bits of every
Usable entry are set. -/
theorem lowInv_install (raw : List (Nat × Nat × EntryType)) :
    LowInv (installAll raw) := by
  intro e he hu
  unfold installAll at he
  obtain ⟨⟨b, l, t⟩, hmem, heq⟩ := List.mem_map.mp he
  subst heq
  cases t with
  | Usable =>
    show EntryLowSet (installEntry b l EntryType.Usable)
    intro j hj1 hj2
    have hbm : (installEntry b l EntryType.Usable).bitmap =
        installBits (reservedBits l)
          { last_index_used := reservedBits l, used_pages := 0,
            total_pages := l / PAGE_SIZE,
            data := List.replicate (l / PAGE_SIZE) false } := rfl
    rw [hbm]
    apply installBits_isUsed
    · exact hj1
    · have htot : (installEntry b l EntryType.Usable).bitmap.total_pages =
          l / PAGE_SIZE := by
        rw [hbm]
        exact (installBits_fields _ _).2.2.1
      rw [htot] at hj2
      simpa using hj2
  | NotUsable =>
    exact EntryType.noConfusion hu

/-- Lemma: every state reachable by allocate_page calls keeps the low
reserved bits of every Usable entry set. -/
theorem reach_lowInv (raw : List (Nat × Nat × EntryType)) :
    ∀ es, ReachAlloc raw es → LowInv es := by
  intro es h
  induction h with
  | init => exact lowInv_install raw
  | step es es2 fuel res _ halloc ih =>
    exact lowInv_evolve es es2 (allocatePage_evolve fuel es res es2 halloc) ih

/-- Lemma: a successful address-returning allocate_page got its address
from some Usable entry as base + i * PAGE_SIZE, where bit i was clear and
lies inside the bit range. -/
theorem allocatePage_some_sound (fuel : Nat) : ∀ es a es2,
    allocatePage fuel es = some (KRes.ok (some a, es2)) →
    ∃ e, e ∈ es ∧ e.typ = EntryType.Usable ∧ ∃ i, e.bitmap.isUsed i = false ∧
      i < e.bitmap.total_pages ∧ a = e.base + i * PAGE_SIZE := by
  intro es
  induction es with
  | nil =>
    intro a es2 h
    have h2 := KRes.ok.inj (Option.some.inj h)
    have h3 : (none : Option Nat) = some a := congrArg Prod.fst h2
    exact Option.noConfusion h3
  | cons e rest ih =>
    intro a es2 h
    rw [allocatePage_cons] at h
    have hskip : (allocatePage fuel rest).map
          (fun r => r.map (fun p => (p.1, e :: p.2))) = some (KRes.ok (some a, es2)) →
        ∃ e2, e2 ∈ e :: rest ∧ e2.typ = EntryType.Usable ∧
          ∃ i, e2.bitmap.isUsed i = false ∧ i < e2.bitmap.total_pages ∧
            a = e2.base + i * PAGE_SIZE := by
      intro hmap
      cases hrest : allocatePage fuel rest with
      | none =>
        rw [hrest] at hmap
        exact Option.noConfusion hmap
      | some r =>
        rw [hrest] at hmap
        cases r with
        | panicked => exact KRes.noConfusion (Option.some.inj hmap)
        | ok p =>
          obtain ⟨o, l⟩ := p
          have h2 := KRes.ok.inj (Option.some.inj hmap)
          have h3 : o = some a := congrArg Prod.fst h2
          obtain ⟨e2, he2, hu2, i, hprops⟩ := ih a l (by rw [hrest, h3])
          exact ⟨e2, List.mem_cons_of_mem _ he2, hu2, i, hprops⟩
    by_cases htyp : e.typ ≠ EntryType.Usable
    · rw [if_pos htyp] at h
      exact hskip h
    · rw [if_neg htyp] at h
      by_cases hfull : e.bitmap.isFull = true
      · rw [if_pos hfull] at h
        exact hskip h
      · rw [if_neg hfull] at h
        cases hgfi : e.bitmap.getFreeIndex fuel with
        | none =>
          rw [hgfi] at h
          exact Option.noConfusion h
        | some o2 =>
          rw [hgfi] at h
          cases o2 with
          | none => exact KRes.noConfusion (Option.some.inj h)
          | some p =>
            obtain ⟨i, bm2⟩ := p
            have h2 := KRes.ok.inj (Option.some.inj h)
            have h3 : (some (e.base + i * PAGE_SIZE) : Option Nat) = some a :=
              congrArg Prod.fst h2
            obtain ⟨hclear, hle, hlt, _⟩ := gfi_sound fuel e.bitmap i bm2 hgfi
            exact ⟨e, List.mem_cons_self e rest, by simpa using htyp, i, hclear,
              by omega, (Option.some.inj h3).symm⟩

/-- Lemma: the pages reserved by install cover the bitmap header and the
bit array. -/
theorem reserved_covers (len : Nat) :
    BITMAP_SIZE + divCeil (len / PAGE_SIZE) 8 ≤ reservedBits len * PAGE_SIZE := by
  unfold reservedBits divCeil BITMAP_SIZE PAGE_SIZE
  omega

/-- Claim C10: after install on a Usable entry, used_pages and the
next-fit hint both start at ceil((total_pages + ceil(32 / PAGE_SIZE)) / 8)
(the reservedBits count), those reserved pages are more than enough to
cover the 32-byte Bitmap header plus the ceil(total_pages / 8) bytes of
bit array, and along any sequence of allocate_page calls from
initialisation every returned address comes from a Usable entry at
base + i * PAGE_SIZE with i at least the reserved count — hence beyond the
metadata bytes. -/
theorem C10_install_reserved (base len : Nat) (raw : List (Nat × Nat × EntryType))
    (es es2 : List MemmapEntry) (fuel a : Nat)
    (hreach : ReachAlloc raw es)
    (halloc : allocatePage fuel es = some (KRes.ok (some a, es2))) :
    (installEntry base len EntryType.Usable).bitmap.used_pages = reservedBits len ∧
    (installEntry base len EntryType.Usable).bitmap.last_index_used = reservedBits len ∧
    BITMAP_SIZE + divCeil (len / PAGE_SIZE) 8 ≤ reservedBits len * PAGE_SIZE ∧
    (∃ e, e ∈ es ∧ e.typ = EntryType.Usable ∧ ∃ i, reservedBits e.len ≤ i ∧
      a = e.base + i * PAGE_SIZE ∧
      e.base + BITMAP_SIZE + divCeil (e.len / PAGE_SIZE) 8 ≤ a) := by
  have hbm : (installEntry base len EntryType.Usable).bitmap =
      installBits (reservedBits len)
        { last_index_used := reservedBits len, used_pages := 0,
          total_pages := len / PAGE_SIZE,
          data := List.replicate (len / PAGE_SIZE) false } := rfl
  obtain ⟨hused, hlast, _, _⟩ := installBits_fields (reservedBits len)
    { last_index_used := reservedBits len, used_pages := 0,
      total_pages := len / PAGE_SIZE,
      data := List.replicate (len / PAGE_SIZE) false }
  refine ⟨by rw [hbm, hused]; simp, by rw [hbm, hlast], reserved_covers len, ?_⟩
  obtain ⟨e, hmem, htyp, i, hclear, hlt, ha⟩ := allocatePage_some_sound fuel es a es2 halloc
  have hlow := reach_lowInv raw es hreach e hmem htyp
  have hige : reservedBits e.len ≤ i := by
    by_contra hcon
    push_neg at hcon
    have := hlow i hcon hlt
    rw [hclear] at this
    cases this
  refine ⟨e, hmem, htyp, i, hige, ha, ?_⟩
  have hcov := reserved_covers e.len
  have hip : reservedBits e.len * PAGE_SIZE ≤ i * PAGE_SIZE :=
    Nat.mul_le_mul_right PAGE_SIZE hige
  omega

/-- Claim C10 witness: the theorem applied to the concrete initial map
mmC8 (one Usable entry, base 0x3000, 3 pages, 1 reserved page) and the
first allocation from it, which returns 0x4000 = base + 1 * PAGE_SIZE. -/
theorem C10_witness :
    (installEntry 12288 12288 EntryType.Usable).bitmap.used_pages = reservedBits 12288 ∧
    (installEntry 12288 12288 EntryType.Usable).bitmap.last_index_used =
      reservedBits 12288 ∧
    BITMAP_SIZE + divCeil (12288 / PAGE_SIZE) 8 ≤ reservedBits 12288 * PAGE_SIZE ∧
    (∃ e, e ∈ mmC8 ∧ e.typ = EntryType.Usable ∧ ∃ i, reservedBits e.len ≤ i ∧
      16384 = e.base + i * PAGE_SIZE ∧
      e.base + BITMAP_SIZE + divCeil (e.len / PAGE_SIZE) 8 ≤ 16384) :=
  C10_install_reserved 12288 12288 [(12288, 12288, EntryType.Usable)] mmC8 mmC8a 10 16384
    (ReachAlloc.init) (by decide)

end ReasonOS
